import Mathlib

/-!
Verification of the concurrent file-processor (`main.go`).

The program walks a directory tree, feeds file paths through a bounded
channel (`jobs`, capacity 100) to a pool of worker goroutines, counts
successes and failures in atomic counters, records per-file errors in a
mutex-guarded slice, and runs an autoscaler that spawns extra workers on
backlog and logically decrements a tracked worker count when the backlog
is low.

The embedding below models the shared state of the system (producer
pending list, channel buffer, closed flag, cancellation flag, in-flight
jobs, finished jobs, counters, error log, worker count, reporter and
autoscaler liveness) and a small-step transition relation `Step` whose
constructors correspond, one for one, to the atomic actions the Go code
can take: an enqueue by the walk callback, the deferred close of the
channel (on normal completion or after the walk observed cancellation),
a worker receiving a job, a worker finishing a job (success or failure
branch of `processFile`), a worker exiting on channel closure or on
context cancellation, the cancellation signal itself, an autoscaler
spawn, and the reporter/autoscaler exiting their select loops once the
context is done.  The autoscaler's pure per-tick policy is modelled
separately (`autoscalerTick`), mirroring the body of `workerAutoscaler`.
-/

namespace FileProcessor

/-- A job is a file path (an opaque token handed from the walk to a worker). -/
abbrev FPath := String

/-- The two per-file failure modes of `processFile`: `os.Open` failing, or
`io.Copy` (the read during hashing) failing. -/
inductive Cause
  | openFail
  | readFail
deriving DecidableEq, Repr

/-- The error value `processFile` returns on failure: it wraps the failing
path together with the cause (`fmt.Errorf("open %s: %w", ...)` resp.
`fmt.Errorf("hash %s: %w", ...)`). -/
structure FailureRecord where
  path : FPath
  cause : Cause
deriving DecidableEq, Repr

/-- Embeds `processFile` from `main.go`.  The filesystem is abstracted as a
map `fs` from paths to their access outcome: `none` means the file opens and
reads successfully (the digest itself is irrelevant to every claim), and
`some c` means opening or reading fails with cause `c`.  `processFile`
returns `none` on success and `some` of the error record on failure. -/
def processFile (fs : FPath → Option Cause) (p : FPath) : Option FailureRecord :=
  match fs p with
  | some c => some { path := p, cause := c }
  | none => none

/-- The `Metrics` struct of `main.go`: two counters mutated only via
`atomic.AddInt64(_, 1)`. -/
structure Metrics where
  processed : Nat
  failed : Nat
deriving DecidableEq, Repr

/-- Shared state of the running system.  `pending` is the tail of the walk's
enumeration not yet offered to the channel; `buffer` is the content of the
`jobs` channel (capacity 100); `closed` records `close(jobs)` having run
(the walk goroutine's deferred close); `cancelled` records `cancel()` having
fired on the shared context; `inFlight` are jobs received by some worker
whose `processFile` call has not yet returned; `done` are finished jobs in
completion order; `errlog` is the mutex-guarded `errors` slice; `dequeued`
counts channel receives of actual jobs; `workers` counts running worker
goroutines registered in the wait group; `reporterLive` / `autoscalerLive`
record whether the metrics reporter / autoscaler goroutine is still in its
select loop. -/
structure SysState where
  pending : List FPath
  buffer : List FPath
  closed : Bool
  cancelled : Bool
  inFlight : List FPath
  done : List FPath
  metrics : Metrics
  errlog : List FailureRecord
  dequeued : Nat
  workers : Nat
  reporterLive : Bool
  autoscalerLive : Bool
deriving DecidableEq, Repr

/-- Capacity of the `jobs` channel: `make(chan string, 100)`. -/
def queueCap : Nat := 100

/-- The initial state of `main`: the walk will enumerate `jobs`, the channel
is empty and open, nothing is cancelled, counters are zero, and `w` initial
workers have been started (the `-workers` flag, default 4). -/
def initState (jobs : List FPath) (w : Nat) : SysState :=
  { pending := jobs
    buffer := []
    closed := false
    cancelled := false
    inFlight := []
    done := []
    metrics := { processed := 0, failed := 0 }
    errlog := []
    dequeued := 0
    workers := w
    reporterLive := true
    autoscalerLive := true }

/-- One atomic action of the system.  Each constructor is one step some
goroutine of `main.go` can take; guards are exactly the conditions under
which the corresponding Go operation can fire.  A send on the channel
requires space (`buffer.length < queueCap`) and an open channel; receiving
from a closed channel yields buffered values until the buffer is empty and
only then the closed indicator (`ok = false`), on which the worker returns
without touching any counter; a worker's `ctx.Done()` branch is available
whenever the context is cancelled; the walk's deferred `close(jobs)` runs
when the traversal finishes (`pending = []`) or when the walk callback
observed cancellation and aborted (remaining entries are dropped).  The
select in the reporter and the autoscaler takes its `ctx.Done()` branch
once the context is cancelled (their only exit); while the context is live
the autoscaler may spawn a worker on the shared wait group (`spawn`
over-approximates the scale-up policy, whose exact per-tick behaviour is
modelled by `autoscalerTick` below). -/
inductive Step (fs : FPath → Option Cause) : SysState → SysState → Prop
  | enqueue (s : SysState) (p : FPath) (rest : List FPath) :
      s.closed = false → s.pending = p :: rest → s.buffer.length < queueCap →
      Step fs s { s with pending := rest, buffer := s.buffer ++ [p] }
  | closeDone (s : SysState) :
      s.closed = false → s.pending = [] →
      Step fs s { s with closed := true }
  | closeCancel (s : SysState) :
      s.closed = false → s.cancelled = true →
      Step fs s { s with closed := true, pending := [] }
  | dequeue (s : SysState) (j : FPath) (rest : List FPath) :
      s.buffer = j :: rest → 0 < s.workers →
      Step fs s { s with buffer := rest, inFlight := s.inFlight ++ [j],
                         dequeued := s.dequeued + 1 }
  | finishOk (s : SysState) (j : FPath) :
      j ∈ s.inFlight → processFile fs j = none →
      Step fs s { s with inFlight := s.inFlight.erase j, done := s.done ++ [j],
                         metrics := { s.metrics with processed := s.metrics.processed + 1 } }
  | finishErr (s : SysState) (j : FPath) (r : FailureRecord) :
      j ∈ s.inFlight → processFile fs j = some r →
      Step fs s { s with inFlight := s.inFlight.erase j, done := s.done ++ [j],
                         metrics := { s.metrics with failed := s.metrics.failed + 1 },
                         errlog := s.errlog ++ [r] }
  | workerExitClosed (s : SysState) :
      0 < s.workers → s.closed = true → s.buffer = [] →
      Step fs s { s with workers := s.workers - 1 }
  | workerExitCancel (s : SysState) :
      0 < s.workers → s.cancelled = true →
      Step fs s { s with workers := s.workers - 1 }
  | cancel (s : SysState) :
      s.cancelled = false →
      Step fs s { s with cancelled := true }
  | spawn (s : SysState) :
      s.cancelled = false → s.autoscalerLive = true →
      Step fs s { s with workers := s.workers + 1 }
  | reporterExit (s : SysState) :
      s.reporterLive = true → s.cancelled = true →
      Step fs s { s with reporterLive := false }
  | autoscalerExit (s : SysState) :
      s.autoscalerLive = true → s.cancelled = true →
      Step fs s { s with autoscalerLive := false }

/-- `StepN fs n s s'`: `s'` is reachable from `s` in exactly `n` steps. -/
def StepN (fs : FPath → Option Cause) : Nat → SysState → SysState → Prop
  | 0, s, s' => s' = s
  | n + 1, s, s' => ∃ t, Step fs s t ∧ StepN fs n t s'

/-- Prepend one step to an execution. -/
theorem StepN.head {fs : FPath → Option Cause} {n : Nat} {s t u : SysState}
    (h1 : Step fs s t) (h2 : StepN fs n t u) : StepN fs (n + 1) s u :=
  ⟨t, h1, h2⟩

/-- Number of jobs in `l` that `processFile` succeeds on (readable files). -/
def okCount (fs : FPath → Option Cause) (l : List FPath) : Nat :=
  l.countP fun p => (processFile fs p).isNone

/-- Number of jobs in `l` that `processFile` fails on (unreadable files). -/
def failCount (fs : FPath → Option Cause) (l : List FPath) : Nat :=
  l.countP fun p => (processFile fs p).isSome

/-! ### The autoscaler policy (`workerAutoscaler` in `main.go`) -/

/-- `maxWorkers := 20` in `workerAutoscaler`. -/
def maxWorkers : Nat := 20

/-- `minWorkers := 2` in `workerAutoscaler`. -/
def minWorkers : Nat := 2

/-- Local bookkeeping of `workerAutoscaler`, plus two ghost fields:
`running` counts worker goroutines actually spawned and still running
(workers exit only on channel closure or cancellation, neither of which a
scaling decision causes), and `wgCount` counts the `wg.Add(1)` calls made on
the single wait group shared with the initial pool. -/
structure ScalerState where
  workerID : Nat
  activeWorkers : Nat
  running : Nat
  wgCount : Nat
deriving DecidableEq, Repr

/-- The scale-up loop
`for i := 0; i < add && activeWorkers < maxWorkers; i++ { wg.Add(1); workerID++; go worker(...); activeWorkers++ }`
with the remaining iteration budget `i` as fuel (`add = 2` at the call
site).  Each iteration registers one goroutine on the shared wait group,
spawns it, and increments the tracked count. -/
def scaleUpLoop : Nat → ScalerState → ScalerState
  | 0, st => st
  | i + 1, st =>
    if st.activeWorkers < maxWorkers then
      scaleUpLoop i
        { workerID := st.workerID + 1
          activeWorkers := st.activeWorkers + 1
          running := st.running + 1
          wgCount := st.wgCount + 1 }
    else st

/-- One tick of `workerAutoscaler` in the running state: sample
`queueLength := len(jobs)`; if `queueLength > 50 && activeWorkers < maxWorkers`
run the scale-up loop with `add := 2`; then if
`queueLength < 10 && activeWorkers > minWorkers` decrement only the tracked
`activeWorkers` counter (the comment in the source: track logical reduction,
idle workers will naturally exit when the queue is empty). -/
def autoscalerTick (queueLength : Nat) (st : ScalerState) : ScalerState :=
  let st1 :=
    if queueLength > 50 ∧ st.activeWorkers < maxWorkers then scaleUpLoop 2 st else st
  if queueLength < 10 ∧ st1.activeWorkers > minWorkers then
    { st1 with activeWorkers := st1.activeWorkers - 1 }
  else st1

/-- A sequence of autoscaler ticks with the sampled queue depths `ds`. -/
def runTicks : List Nat → ScalerState → ScalerState
  | [], st => st
  | d :: ds, st => runTicks ds (autoscalerTick d st)

/-- All states the autoscaler bookkeeping passes through along the depth
samples `ds`, initial state included. -/
def ticksTrace : List Nat → ScalerState → List ScalerState
  | [], st => [st]
  | d :: ds, st => st :: ticksTrace ds (autoscalerTick d st)

/-! ### Multiset bookkeeping helpers -/

/-- Coercion of a list append is the multiset sum. -/
theorem coeAppend (l₁ l₂ : List FPath) :
    ((l₁ ++ l₂ : List FPath) : Multiset FPath) = ↑l₁ + ↑l₂ :=
  (Multiset.coe_add l₁ l₂).symm

/-- Coercion of a cons is the singleton plus the tail. -/
theorem coeCons (a : FPath) (l : List FPath) :
    ((a :: l : List FPath) : Multiset FPath) = {a} + ↑l := by
  rw [← Multiset.cons_coe, ← Multiset.singleton_add]

/-- Removing a present element and re-adding it is the identity, as multisets. -/
theorem coeErase {a : FPath} {l : List FPath} (h : a ∈ l) :
    (l : Multiset FPath) = {a} + ↑(l.erase a) := by
  rw [Multiset.coe_eq_coe.mpr (List.perm_cons_erase h), coeCons]

/-! ### The reachability invariant -/

/-- Invariant tying a state reachable from `initState jobs w` to the walk
output `jobs`.  `sub`/`eqn`: every job is in exactly one of pending, buffer,
in flight, or done (with pending partially dropped once the walk aborted on
cancellation); `proc`/`fail`: the counters count exactly the finished jobs
whose `processFile` succeeded resp. failed; `deq`: `dequeued` counts the
received jobs; `err`: one error-log entry per failure; `errRec`: each entry
is the `processFile` error of its own path; `errDone`: each entry's path is
a finished job; `closedEmpty`: an uncancelled close implies the walk ran to
completion. -/
structure Inv (fs : FPath → Option Cause) (jobs : List FPath) (s : SysState) : Prop where
  sub : (↑s.pending + ↑s.buffer + ↑s.inFlight + ↑s.done : Multiset FPath) ≤ ↑jobs
  eqn : s.cancelled = false →
    (↑s.pending + ↑s.buffer + ↑s.inFlight + ↑s.done : Multiset FPath) = ↑jobs
  proc : s.metrics.processed = okCount fs s.done
  fail : s.metrics.failed = failCount fs s.done
  deq : s.dequeued = s.inFlight.length + s.done.length
  err : s.errlog.length = s.metrics.failed
  errRec : ∀ r ∈ s.errlog, processFile fs r.path = some r
  errDone : ∀ r ∈ s.errlog, r.path ∈ s.done
  closedEmpty : s.closed = true → s.cancelled = false → s.pending = []

/-- The initial state satisfies the invariant. -/
theorem inv_init (fs : FPath → Option Cause) (jobs : List FPath) (w : Nat) :
    Inv fs jobs (initState jobs w) := by
  refine ⟨?_, fun _ => ?_, rfl, rfl, rfl, rfl, ?_, ?_, ?_⟩ <;>
    simp [initState, okCount, failCount]

/-- A failure record returned by `processFile` carries the failing path, and
running `processFile` on that recorded path reproduces the record. -/
theorem processFile_path (fs : FPath → Option Cause) (j : FPath) (r : FailureRecord)
    (h : processFile fs j = some r) : r.path = j ∧ processFile fs r.path = some r := by
  cases hfs : fs j with
  | none => simp [processFile, hfs] at h
  | some c =>
    simp [processFile, hfs] at h
    refine ⟨by rw [← h], ?_⟩
    rw [← h]
    simp [processFile, hfs]

/-- Every step of the system preserves the invariant. -/
theorem inv_step {fs : FPath → Option Cause} {jobs : List FPath} {s s' : SysState}
    (hs : Inv fs jobs s) (h : Step fs s s') : Inv fs jobs s' := by
  obtain ⟨sub, eqn, proc, fail, deq, err, errRec, errDone, closedEmpty⟩ := hs
  cases h with
  | enqueue p rest hcl hp hlen =>
    have key : (↑rest + ↑(s.buffer ++ [p]) + ↑s.inFlight + ↑s.done : Multiset FPath) =
        ↑s.pending + ↑s.buffer + ↑s.inFlight + ↑s.done := by
      rw [hp]
      simp only [coeAppend, coeCons, Multiset.coe_nil]
      abel
    exact ⟨by rw [key]; exact sub, fun hc => by rw [key]; exact eqn hc,
      proc, fail, deq, err, errRec, errDone,
      fun hc _ => absurd hc (by simp [hcl])⟩
  | closeDone hcl hp =>
    exact ⟨sub, eqn, proc, fail, deq, err, errRec, errDone, fun _ _ => hp⟩
  | closeCancel hcl hca =>
    refine ⟨?_, fun hc => absurd hc (by simp [hca]), proc, fail, deq, err, errRec, errDone,
      fun _ _ => rfl⟩
    have step1 : (↑s.buffer + ↑s.inFlight + ↑s.done : Multiset FPath) ≤
        ↑s.pending + ↑s.buffer + ↑s.inFlight + ↑s.done := by
      have h0 := Multiset.le_add_left (↑s.buffer + ↑s.inFlight + ↑s.done)
        (↑s.pending : Multiset FPath)
      rwa [← add_assoc, ← add_assoc] at h0
    have : ((↑([] : List FPath) + ↑s.buffer + ↑s.inFlight + ↑s.done : Multiset FPath)) =
        ↑s.buffer + ↑s.inFlight + ↑s.done := by
      simp
    rw [this]
    exact le_trans step1 sub
  | dequeue j rest hb hw =>
    have key : (↑s.pending + ↑rest + ↑(s.inFlight ++ [j]) + ↑s.done : Multiset FPath) =
        ↑s.pending + ↑s.buffer + ↑s.inFlight + ↑s.done := by
      rw [hb]
      simp only [coeAppend, coeCons, Multiset.coe_nil]
      abel
    refine ⟨by rw [key]; exact sub, fun hc => by rw [key]; exact eqn hc,
      proc, fail, ?_, err, errRec, errDone, closedEmpty⟩
    simp only [List.length_append, List.length_cons, List.length_nil]
    omega
  | finishOk j hj hpf =>
    have key : (↑s.pending + ↑s.buffer + ↑(s.inFlight.erase j) + ↑(s.done ++ [j]) :
        Multiset FPath) = ↑s.pending + ↑s.buffer + ↑s.inFlight + ↑s.done := by
      rw [coeErase hj]
      simp only [coeAppend, coeCons, Multiset.coe_nil]
      abel
    have hlen : 0 < s.inFlight.length := List.length_pos.mpr (List.ne_nil_of_mem hj)
    refine ⟨by rw [key]; exact sub, fun hc => by rw [key]; exact eqn hc,
      ?_, ?_, ?_, err, errRec, ?_, closedEmpty⟩
    · simp [okCount, List.countP_append, List.countP_cons, hpf] at proc ⊢
      omega
    · simp [failCount, List.countP_append, List.countP_cons, hpf] at fail ⊢
      omega
    · simp [List.length_append, List.length_erase_of_mem hj]
      omega
    · exact fun r hr => List.mem_append_left _ (errDone r hr)
  | finishErr j r hj hpf =>
    have key : (↑s.pending + ↑s.buffer + ↑(s.inFlight.erase j) + ↑(s.done ++ [j]) :
        Multiset FPath) = ↑s.pending + ↑s.buffer + ↑s.inFlight + ↑s.done := by
      rw [coeErase hj]
      simp only [coeAppend, coeCons, Multiset.coe_nil]
      abel
    have hlen : 0 < s.inFlight.length := List.length_pos.mpr (List.ne_nil_of_mem hj)
    have hrp := processFile_path fs j r hpf
    refine ⟨by rw [key]; exact sub, fun hc => by rw [key]; exact eqn hc,
      ?_, ?_, ?_, ?_, ?_, ?_, closedEmpty⟩
    · simp [okCount, List.countP_append, List.countP_cons, hpf] at proc ⊢
      omega
    · simp [failCount, List.countP_append, List.countP_cons, hpf] at fail ⊢
      omega
    · simp [List.length_append, List.length_erase_of_mem hj]
      omega
    · simp [List.length_append, err]
    · intro r' hr'
      rcases List.mem_append.mp hr' with hold | hnew
      · exact errRec r' hold
      · rw [List.mem_singleton.mp hnew]
        exact hrp.2
    · intro r' hr'
      rcases List.mem_append.mp hr' with hold | hnew
      · exact List.mem_append_left _ (errDone r' hold)
      · rw [List.mem_singleton.mp hnew, hrp.1]
        exact List.mem_append_right _ (List.mem_singleton.mpr rfl)
  | workerExitClosed hw hcl hb =>
    exact ⟨sub, eqn, proc, fail, deq, err, errRec, errDone, closedEmpty⟩
  | workerExitCancel hw hca =>
    exact ⟨sub, eqn, proc, fail, deq, err, errRec, errDone, closedEmpty⟩
  | cancel hca =>
    exact ⟨sub, fun hc => absurd hc (by simp), proc, fail, deq, err, errRec, errDone,
      fun _ hc => absurd hc (by simp)⟩
  | spawn hca hal =>
    exact ⟨sub, eqn, proc, fail, deq, err, errRec, errDone, closedEmpty⟩
  | reporterExit hrl hca =>
    exact ⟨sub, eqn, proc, fail, deq, err, errRec, errDone, closedEmpty⟩
  | autoscalerExit hal hca =>
    exact ⟨sub, eqn, proc, fail, deq, err, errRec, errDone, closedEmpty⟩

/-- The invariant holds in every state reachable from a state satisfying it. -/
theorem inv_stepN {fs : FPath → Option Cause} {jobs : List FPath} :
    ∀ {n : Nat} {s s' : SysState}, Inv fs jobs s → StepN fs n s s' → Inv fs jobs s'
  | 0, _, _, hs, h => h ▸ hs
  | n + 1, _, _, hs, ⟨_, h1, h2⟩ => inv_stepN (inv_step hs h1) h2

/-- Every state reachable from the initial state satisfies the invariant. -/
theorem inv_reach {fs : FPath → Option Cause} {jobs : List FPath} {w n : Nat}
    {s : SysState} (h : StepN fs n (initState jobs w) s) : Inv fs jobs s :=
  inv_stepN (inv_init fs jobs w) h

/-- Success count and failure count partition a job list. -/
theorem okCount_add_failCount (fs : FPath → Option Cause) (l : List FPath) :
    okCount fs l + failCount fs l = l.length := by
  induction l with
  | nil => rfl
  | cons p t ih =>
    simp only [okCount, failCount, List.countP_cons, List.length_cons] at ih ⊢
    cases h : processFile fs p <;> simp [h] <;> omega

/-! ### Claim theorems -/

/-- C1: for every complete, uncancelled run over a tree with M readable and
K unreadable files, the final counters satisfy `processed = M`, `failed = K`
and `processed + failed = M + K`, regardless of the initial worker count `w`
or any autoscaling (spawn) events along the run.  A complete run is a
reachable state in which the producer has closed the queue without being
cancelled, the buffer has been drained, and no job is still in flight. -/
theorem c1_complete_run_counts (fs : FPath → Option Cause) (jobs : List FPath)
    (w n : Nat) (s : SysState) (hrun : StepN fs n (initState jobs w) s)
    (hclosed : s.closed = true) (hbuf : s.buffer = []) (hinf : s.inFlight = [])
    (hcanc : s.cancelled = false) :
    s.metrics.processed = okCount fs jobs ∧ s.metrics.failed = failCount fs jobs ∧
      s.metrics.processed + s.metrics.failed = jobs.length := by
  have inv := inv_reach hrun
  have hpend : s.pending = [] := inv.closedEmpty hclosed hcanc
  have heq := inv.eqn hcanc
  rw [hpend, hbuf, hinf] at heq
  simp only [Multiset.coe_nil, zero_add] at heq
  have hperm : s.done.Perm jobs := Multiset.coe_eq_coe.mp heq
  have hok : okCount fs s.done = okCount fs jobs := hperm.countP_eq _
  have hfail : failCount fs s.done = failCount fs jobs := hperm.countP_eq _
  refine ⟨inv.proc.trans hok, inv.fail.trans hfail, ?_⟩
  rw [inv.proc, inv.fail, hok, hfail, okCount_add_failCount]

/-- Concrete filesystem for the C1 witness: every file is readable. -/
def c1Fs : FPath → Option Cause := fun _ => none

/-- Final state of the concrete C1 run: one file, one worker, processed. -/
def c1End : SysState :=
  { pending := []
    buffer := []
    closed := true
    cancelled := false
    inFlight := []
    done := ["a"]
    metrics := { processed := 1, failed := 0 }
    errlog := []
    dequeued := 1
    workers := 1
    reporterLive := true
    autoscalerLive := true }

/-- Witness for C1: a concrete four-step complete run over one readable file
with one worker ends with `processed = 1`, `failed = 0`. -/
theorem c1_complete_run_counts_witness :
    c1End.metrics.processed = okCount c1Fs ["a"] ∧
      c1End.metrics.failed = failCount c1Fs ["a"] ∧
      c1End.metrics.processed + c1End.metrics.failed = (["a"] : List FPath).length := by
  have hrun : StepN c1Fs 4 (initState ["a"] 1) c1End :=
    StepN.head (Step.enqueue _ "a" [] rfl rfl (by decide))
      (StepN.head (Step.closeDone _ rfl rfl)
        (StepN.head (Step.dequeue _ "a" [] rfl (by decide))
          (StepN.head (Step.finishOk _ "a" (by decide) rfl)
            (show c1End = _ by decide))))
  exact c1_complete_run_counts c1Fs ["a"] 1 4 c1End hrun rfl rfl rfl rfl

/-- C5: in every reachable state, `processed + failed` never exceeds the
number of jobs dequeued so far; and along every step, both counters and the
dequeue count are non-decreasing, each step changes the counter pair by at
most one atomic increment of exactly one of the two (success or failure of
the finished job), and nothing ever decrements either counter. -/
theorem c5_counters_bounded_monotone (fs : FPath → Option Cause) :
    (∀ (jobs : List FPath) (w n : Nat) (s : SysState),
        StepN fs n (initState jobs w) s →
        s.metrics.processed + s.metrics.failed ≤ s.dequeued) ∧
    (∀ s s' : SysState, Step fs s s' →
        (s.metrics.processed ≤ s'.metrics.processed ∧
          s.metrics.failed ≤ s'.metrics.failed ∧ s.dequeued ≤ s'.dequeued) ∧
        ((s'.metrics.processed = s.metrics.processed ∧
            s'.metrics.failed = s.metrics.failed) ∨
          (s'.metrics.processed = s.metrics.processed + 1 ∧
            s'.metrics.failed = s.metrics.failed) ∨
          (s'.metrics.processed = s.metrics.processed ∧
            s'.metrics.failed = s.metrics.failed + 1))) := by
  constructor
  · intro jobs w n s h
    have inv := inv_reach h
    have hpart := okCount_add_failCount fs s.done
    rw [inv.proc, inv.fail, inv.deq]
    omega
  · intro s s' h
    cases h <;> dsimp only <;> omega

/-- Filesystem for the C5 witness. -/
def c5Fs : FPath → Option Cause := fun _ => none

/-- Witness for C5: the bound holds in the concrete state reached by one
cancellation step from an empty initial state, and the step shape holds for
that concrete step. -/
theorem c5_counters_bounded_monotone_witness :
    (({ initState [] 0 with cancelled := true } : SysState).metrics.processed +
        ({ initState [] 0 with cancelled := true } : SysState).metrics.failed ≤
        ({ initState [] 0 with cancelled := true } : SysState).dequeued) ∧
      ((initState [] 0).metrics.processed ≤
          ({ initState [] 0 with cancelled := true } : SysState).metrics.processed) :=
  ⟨(c5_counters_bounded_monotone c5Fs).1 [] 0 1 _ ⟨_, Step.cancel _ rfl, rfl⟩,
    (((c5_counters_bounded_monotone c5Fs).2 _ _ (Step.cancel _ rfl)).1).1⟩

/-- The final summary of `main` prints the error log entries in slice
order (`for _, err := range errors { fmt.Println("-", err) }`). -/
def finalErrorReport (s : SysState) : List FailureRecord :=
  s.errlog

/-- C8: in every reachable state the error log has exactly one record per
failure (`errlog.length = failed`), every record holds the failing path and
cause as produced by `processFile` on that path, and the final summary
prints the records in append order; moreover any step that touches the
error log appends exactly one record and increments `failed` by exactly one,
leaving `processed` unchanged. -/
theorem c8_error_log_matches_failures (fs : FPath → Option Cause) :
    (∀ (jobs : List FPath) (w n : Nat) (s : SysState),
        StepN fs n (initState jobs w) s →
        s.errlog.length = s.metrics.failed ∧
          finalErrorReport s = s.errlog ∧
          ∀ r ∈ s.errlog, processFile fs r.path = some r) ∧
    (∀ s s' : SysState, Step fs s s' → s'.errlog ≠ s.errlog →
        ∃ r : FailureRecord,
          s'.errlog = s.errlog ++ [r] ∧
            s'.metrics.failed = s.metrics.failed + 1 ∧
            s'.metrics.processed = s.metrics.processed ∧
            processFile fs r.path = some r) := by
  constructor
  · intro jobs w n s h
    have inv := inv_reach h
    exact ⟨inv.err, rfl, inv.errRec⟩
  · intro s s' h hne
    cases h with
    | finishErr j r hj hpf =>
      exact ⟨r, rfl, rfl, rfl, (processFile_path fs j r hpf).2⟩
    | enqueue p rest hcl hp hlen => exact absurd rfl hne
    | closeDone hcl hp => exact absurd rfl hne
    | closeCancel hcl hca => exact absurd rfl hne
    | dequeue j rest hb hw => exact absurd rfl hne
    | finishOk j hj hpf => exact absurd rfl hne
    | workerExitClosed hw hcl hb => exact absurd rfl hne
    | workerExitCancel hw hca => exact absurd rfl hne
    | cancel hca => exact absurd rfl hne
    | spawn hca hal => exact absurd rfl hne
    | reporterExit hrl hca => exact absurd rfl hne
    | autoscalerExit hal hca => exact absurd rfl hne

/-- Filesystem for the C8 witness: the single file fails to open. -/
def c8Fs : FPath → Option Cause := fun _ => some Cause.openFail

/-- Final state of the concrete C8 run: one unreadable file, one worker. -/
def c8End : SysState :=
  { pending := []
    buffer := []
    closed := true
    cancelled := false
    inFlight := []
    done := ["e"]
    metrics := { processed := 0, failed := 1 }
    errlog := [{ path := "e", cause := Cause.openFail }]
    dequeued := 1
    workers := 1
    reporterLive := true
    autoscalerLive := true }

/-- Witness for C8: after a concrete run over one unreadable file, the error
log holds exactly one record, matching the failed counter. -/
theorem c8_error_log_matches_failures_witness :
    c8End.errlog.length = c8End.metrics.failed ∧
      finalErrorReport c8End = c8End.errlog ∧
      ∀ r ∈ c8End.errlog, processFile c8Fs r.path = some r := by
  have hrun : StepN c8Fs 4 (initState ["e"] 1) c8End :=
    StepN.head (Step.enqueue _ "e" [] rfl rfl (by decide))
      (StepN.head (Step.closeDone _ rfl rfl)
        (StepN.head (Step.dequeue _ "e" [] rfl (by decide))
          (StepN.head
            (Step.finishErr _ "e" { path := "e", cause := Cause.openFail } (by decide) rfl)
            (show c8End = _ by decide))))
  exact (c8_error_log_matches_failures c8Fs).1 ["e"] 1 4 c8End hrun

/-- One entry offered to the `filepath.Walk` callback: its path, whether it
is a directory (`info.IsDir()`), and whether the walk passed a per-entry
error (`err != nil`) for it. -/
structure WalkEntry where
  path : FPath
  isDir : Bool
  entryErr : Bool
deriving DecidableEq, Repr

/-- Embeds the walk callback in `main`: an entry with a per-entry error is
skipped (`if err != nil { return nil }`), a directory is skipped
(`if info.IsDir() { return nil }`), and every other entry's path is sent to
the jobs channel.  The result is the sequence of jobs the producer offers. -/
def walkJobs (entries : List WalkEntry) : List FPath :=
  entries.filterMap fun e =>
    if e.entryErr then none else if e.isDir then none else some e.path

/-- C10: a path whose every walk entry carries a per-entry error (or is a
directory) is never produced as a job, and in every reachable state of a run
over the walk output it is never in the channel buffer, never in flight,
never finished — hence counted in neither `processed` nor `failed` — and no
error-log record carries it. -/
theorem c10_walk_error_entries_uncounted (entries : List WalkEntry) (e : WalkEntry)
    (he : e ∈ entries) (herr : e.entryErr = true)
    (hall : ∀ e' ∈ entries, e'.path = e.path → e'.entryErr = true ∨ e'.isDir = true) :
    e.path ∉ walkJobs entries ∧
    ∀ (fs : FPath → Option Cause) (w n : Nat) (s : SysState),
      StepN fs n (initState (walkJobs entries) w) s →
      e.path ∉ s.buffer ∧ e.path ∉ s.inFlight ∧ e.path ∉ s.done ∧
        ∀ r ∈ s.errlog, r.path ≠ e.path := by
  have hnot : e.path ∉ walkJobs entries := by
    intro hmem
    obtain ⟨e', he', hsome⟩ := List.mem_filterMap.mp hmem
    by_cases h1 : e'.entryErr = true
    · simp [h1] at hsome
    · by_cases h2 : e'.isDir = true
      · simp [h1, h2] at hsome
      · simp [h1, h2] at hsome
        rcases hall e' he' hsome with h | h
        · exact h1 h
        · exact h2 h
  refine ⟨hnot, ?_⟩
  intro fs w n s h
  have inv := inv_reach h
  have hjobs : ∀ p : FPath,
      p ∈ (↑s.pending + ↑s.buffer + ↑s.inFlight + ↑s.done : Multiset FPath) →
      p ∈ walkJobs entries := by
    intro p hp
    simpa using Multiset.mem_of_le inv.sub hp
  have hbuf : e.path ∉ s.buffer := fun hmem =>
    hnot (hjobs e.path (by simp [hmem]))
  have hinf : e.path ∉ s.inFlight := fun hmem =>
    hnot (hjobs e.path (by simp [hmem]))
  have hdone : e.path ∉ s.done := fun hmem =>
    hnot (hjobs e.path (by simp [hmem]))
  refine ⟨hbuf, hinf, hdone, ?_⟩
  intro r hr hpath
  exact hdone (hpath ▸ inv.errDone r hr)

/-- Walk entries for the C10 witness: one errored entry, one regular file. -/
def c10Entries : List WalkEntry :=
  [{ path := "bad", isDir := false, entryErr := true },
   { path := "f", isDir := false, entryErr := false }]

/-- The errored entry of `c10Entries`. -/
def c10Err : WalkEntry := { path := "bad", isDir := false, entryErr := true }

/-- Filesystem for the C10 witness. -/
def c10Fs : FPath → Option Cause := fun _ => none

/-- Witness for C10: the errored entry of the concrete walk produces no job
and appears nowhere in the initial state of the run over the walk output. -/
theorem c10_walk_error_entries_uncounted_witness :
    c10Err.path ∉ walkJobs c10Entries ∧
      c10Err.path ∉ (initState (walkJobs c10Entries) 1).buffer ∧
      c10Err.path ∉ (initState (walkJobs c10Entries) 1).inFlight ∧
      c10Err.path ∉ (initState (walkJobs c10Entries) 1).done ∧
      ∀ r ∈ (initState (walkJobs c10Entries) 1).errlog, r.path ≠ c10Err.path := by
  have h := c10_walk_error_entries_uncounted c10Entries c10Err (by decide) rfl (by decide)
  exact ⟨h.1, h.2 c10Fs 1 0 _ rfl⟩

/-- Unfolding of the scale-up loop with budget 2: it spawns
`min 2 (maxWorkers - activeWorkers)` workers when the tracked count is below
`maxWorkers`, registering each on the shared wait group. -/
theorem scaleUpLoop_two (st : ScalerState) (h : st.activeWorkers < maxWorkers) :
    scaleUpLoop 2 st =
      { workerID := st.workerID + min 2 (maxWorkers - st.activeWorkers)
        activeWorkers := st.activeWorkers + min 2 (maxWorkers - st.activeWorkers)
        running := st.running + min 2 (maxWorkers - st.activeWorkers)
        wgCount := st.wgCount + min 2 (maxWorkers - st.activeWorkers) } := by
  by_cases h2 : st.activeWorkers + 1 < maxWorkers
  · have hmin : min 2 (maxWorkers - st.activeWorkers) = 2 := by
      unfold maxWorkers at *
      omega
    simp only [scaleUpLoop, if_pos h]
    simp only [scaleUpLoop, if_pos h2]
    simp [ScalerState.mk.injEq, hmin]
  · have hmin : min 2 (maxWorkers - st.activeWorkers) = 1 := by
      unfold maxWorkers at *
      omega
    simp only [scaleUpLoop, if_pos h]
    simp only [scaleUpLoop, if_neg h2]
    simp [ScalerState.mk.injEq, hmin]

/-- C2: on an autoscaler tick in the running state with sampled depth above
the high watermark (50) and tracked count below `maxWorkers` (20), the tick
spawns exactly `min 2 (maxWorkers - activeWorkers)` new workers, each added
to the shared wait group, increments the tracked count once per spawn, and
never raises the tracked count past `maxWorkers`. -/
theorem c2_scale_up_rule (d : Nat) (st : ScalerState) (h1 : 50 < d)
    (h2 : st.activeWorkers < maxWorkers) :
    (autoscalerTick d st).running =
        st.running + min 2 (maxWorkers - st.activeWorkers) ∧
      (autoscalerTick d st).wgCount =
        st.wgCount + min 2 (maxWorkers - st.activeWorkers) ∧
      (autoscalerTick d st).activeWorkers =
        st.activeWorkers + min 2 (maxWorkers - st.activeWorkers) ∧
      (autoscalerTick d st).activeWorkers ≤ maxWorkers := by
  have hcond :
      (if d > 50 ∧ st.activeWorkers < maxWorkers then scaleUpLoop 2 st else st) =
        scaleUpLoop 2 st := if_pos ⟨h1, h2⟩
  have hno : ¬(d < 10 ∧ (scaleUpLoop 2 st).activeWorkers > minWorkers) := by omega
  simp only [autoscalerTick]
  rw [hcond, if_neg hno, scaleUpLoop_two st h2]
  refine ⟨rfl, rfl, rfl, ?_⟩
  dsimp only
  simp only [maxWorkers] at h2 ⊢
  omega

/-- Witness for C2: the scenario from the spec — depth 60 with tracked count
5 spawns exactly 2 workers and brings the tracked count to 7. -/
theorem c2_scale_up_rule_witness :
    (autoscalerTick 60 { workerID := 5, activeWorkers := 5, running := 5, wgCount := 5 }).running =
        5 + min 2 (maxWorkers - 5) ∧
      (autoscalerTick 60
          { workerID := 5, activeWorkers := 5, running := 5, wgCount := 5 }).wgCount =
        5 + min 2 (maxWorkers - 5) ∧
      (autoscalerTick 60
          { workerID := 5, activeWorkers := 5, running := 5, wgCount := 5 }).activeWorkers =
        5 + min 2 (maxWorkers - 5) ∧
      (autoscalerTick 60
          { workerID := 5, activeWorkers := 5, running := 5, wgCount := 5 }).activeWorkers ≤
        maxWorkers :=
  c2_scale_up_rule 60 { workerID := 5, activeWorkers := 5, running := 5, wgCount := 5 }
    (by decide) (by decide)

/-- C3: on an autoscaler tick in the running state with sampled depth below
the low watermark (10) and tracked count above `minWorkers` (2), the tick
decrements only the tracked count by exactly one — the set of running
workers and the wait-group registrations are unchanged, so no worker is
terminated — and the tracked count never drops below `minWorkers`. -/
theorem c3_scale_down_rule (d : Nat) (st : ScalerState) (h1 : d < 10)
    (h2 : minWorkers < st.activeWorkers) :
    (autoscalerTick d st).activeWorkers = st.activeWorkers - 1 ∧
      (autoscalerTick d st).running = st.running ∧
      (autoscalerTick d st).wgCount = st.wgCount ∧
      (autoscalerTick d st).workerID = st.workerID ∧
      minWorkers ≤ (autoscalerTick d st).activeWorkers := by
  have hno : ¬(d > 50 ∧ st.activeWorkers < maxWorkers) := by omega
  simp only [autoscalerTick]
  rw [if_neg hno, if_pos ⟨h1, h2⟩]
  refine ⟨rfl, rfl, rfl, rfl, ?_⟩
  dsimp only
  simp only [minWorkers] at h2 ⊢
  omega

/-- Witness for C3: the scenario from the spec — depth 5 with tracked count
4 yields tracked count 3 with no worker stopped. -/
theorem c3_scale_down_rule_witness :
    (autoscalerTick 5 { workerID := 9, activeWorkers := 4, running := 9, wgCount := 9 }).activeWorkers =
        4 - 1 ∧
      (autoscalerTick 5
          { workerID := 9, activeWorkers := 4, running := 9, wgCount := 9 }).running = 9 ∧
      (autoscalerTick 5
          { workerID := 9, activeWorkers := 4, running := 9, wgCount := 9 }).wgCount = 9 ∧
      (autoscalerTick 5
          { workerID := 9, activeWorkers := 4, running := 9, wgCount := 9 }).workerID = 9 ∧
      minWorkers ≤
        (autoscalerTick 5
          { workerID := 9, activeWorkers := 4, running := 9, wgCount := 9 }).activeWorkers :=
  c3_scale_down_rule 5 { workerID := 9, activeWorkers := 4, running := 9, wgCount := 9 }
    (by decide) (by decide)

/-- Depth samples for C9: 8 high-backlog ticks grow the pool from 4 to 20
real workers, 18 low-backlog ticks erode the tracked count from 20 down to
2 while terminating nobody, and one more high-backlog tick spawns 2 more
real workers. -/
def c9Depths : List Nat := List.replicate 8 60 ++ List.replicate 18 5 ++ [60]

/-- Initial autoscaler bookkeeping for C9: 4 initial workers. -/
def c9Init : ScalerState := { workerID := 4, activeWorkers := 4, running := 4, wgCount := 4 }

set_option maxRecDepth 4000 in
/-- C9: because a scale-down only decrements the tracked count, a later
scale-up compares the deflated count against `maxWorkers` and spawns more
real workers: along this concrete depth sequence the number of actually
spawned-and-still-running workers ends above 20 even though the tracked
count never exceeds 20.  (A worker exits only on channel closure or
cancellation, neither of which occurs here, so `running` counts live
workers.) -/
theorem c9_running_workers_exceed_max :
    maxWorkers < (runTicks c9Depths c9Init).running ∧
      ∀ st ∈ ticksTrace c9Depths c9Init, st.activeWorkers ≤ maxWorkers := by decide

/-- All components have terminated: every worker has returned (so `wg.Wait`
in `main` has completed), the producer has closed the queue and exited, and
the reporter and autoscaler have left their select loops. -/
def Exited (s : SysState) : Prop :=
  s.workers = 0 ∧ s.closed = true ∧ s.reporterLive = false ∧ s.autoscalerLive = false

/-- Termination measure for the post-cancellation system: every step a
component can take once the context is cancelled strictly decreases it. -/
def shutdownMeasure (s : SysState) : Nat :=
  3 * s.pending.length + 2 * s.buffer.length + s.inFlight.length + s.workers +
    (1 - s.closed.toNat) + s.reporterLive.toNat + s.autoscalerLive.toNat

/-- Cancellation is irreversible: no step resets the cancelled flag. -/
theorem step_cancelled_mono {fs : FPath → Option Cause} {s s' : SysState}
    (h : Step fs s s') (hc : s.cancelled = true) : s'.cancelled = true := by
  cases h <;> first | exact hc | rfl

/-- After cancellation, every step strictly decreases the shutdown measure:
no component can take infinitely many steps past the cancellation. -/
theorem step_measure_lt {fs : FPath → Option Cause} {s s' : SysState}
    (h : Step fs s s') (hc : s.cancelled = true) :
    shutdownMeasure s' < shutdownMeasure s := by
  cases h with
  | enqueue p rest hcl hp hlen =>
    simp [shutdownMeasure, hp]
    omega
  | closeDone hcl hp =>
    simp [shutdownMeasure, hp, hcl]
  | closeCancel hcl hca =>
    simp [shutdownMeasure, hcl]
    omega
  | dequeue j rest hb hw =>
    simp [shutdownMeasure, hb]
    omega
  | finishOk j hj hpf =>
    have hlen : 0 < s.inFlight.length := List.length_pos.mpr (List.ne_nil_of_mem hj)
    simp [shutdownMeasure, List.length_erase_of_mem hj]
    omega
  | finishErr j r hj hpf =>
    have hlen : 0 < s.inFlight.length := List.length_pos.mpr (List.ne_nil_of_mem hj)
    simp [shutdownMeasure, List.length_erase_of_mem hj]
    omega
  | workerExitClosed hw hcl hb =>
    simp [shutdownMeasure]
    omega
  | workerExitCancel hw hca =>
    simp [shutdownMeasure]
    omega
  | cancel hca => simp [hca] at hc
  | spawn hca hal => simp [hca] at hc
  | reporterExit hrl hca =>
    simp [shutdownMeasure, hrl]
  | autoscalerExit hal hca =>
    simp [shutdownMeasure, hal]

/-- After cancellation, a state in which some component has not yet
terminated always has an enabled step: no component is ever stuck
(deadlock freedom past the cancellation). -/
theorem step_progress (fs : FPath → Option Cause) (s : SysState)
    (hc : s.cancelled = true) (hne : ¬ Exited s) : ∃ s', Step fs s s' := by
  by_cases hw : 0 < s.workers
  · exact ⟨_, Step.workerExitCancel s hw hc⟩
  · by_cases hcl : s.closed = true
    · by_cases hr : s.reporterLive = true
      · exact ⟨_, Step.reporterExit s hr hc⟩
      · by_cases ha : s.autoscalerLive = true
        · exact ⟨_, Step.autoscalerExit s ha hc⟩
        · exact absurd ⟨by omega, hcl, by simpa using hr, by simpa using ha⟩ hne
    · exact ⟨_, Step.closeCancel s (by simpa using hcl) hc⟩

/-- From any cancelled state, a fully terminated state is reachable in at
most `shutdownMeasure` steps. -/
theorem exit_reachable {fs : FPath → Option Cause} (s : SysState)
    (hc : s.cancelled = true) :
    ∃ (n : Nat) (s' : SysState),
      StepN fs n s s' ∧ Exited s' ∧ n ≤ shutdownMeasure s := by
  suffices h : ∀ (m : Nat) (t : SysState), shutdownMeasure t ≤ m → t.cancelled = true →
      ∃ (n : Nat) (t' : SysState), StepN fs n t t' ∧ Exited t' ∧ n ≤ shutdownMeasure t by
    exact h (shutdownMeasure s) s le_rfl hc
  intro m
  induction m with
  | zero =>
    intro t hm ht
    by_cases hex : Exited t
    · exact ⟨0, t, rfl, hex, Nat.zero_le _⟩
    · obtain ⟨u, hu⟩ := step_progress fs t ht hex
      have := step_measure_lt hu ht
      omega
  | succ m ih =>
    intro t hm ht
    by_cases hex : Exited t
    · exact ⟨0, t, rfl, hex, Nat.zero_le _⟩
    · obtain ⟨u, hu⟩ := step_progress fs t ht hex
      have h1 := step_measure_lt hu ht
      have h2 := step_cancelled_mono hu ht
      obtain ⟨n, t', hsn, hex', hle⟩ := ih u (by omega) h2
      exact ⟨n + 1, t', StepN.head hu hsn, hex', by omega⟩

/-- C4: once the shutdown context is cancelled, no component blocks
indefinitely.  In any cancelled state: (i) as long as some component has not
terminated, a step is enabled (no deadlock; in particular the producer can
always abandon a blocked enqueue via its cancellation branch, and workers,
the reporter and the autoscaler can always take their done branch); (ii)
every step any component takes strictly decreases a finite measure and
preserves cancellation, so only finitely many steps remain; and (iii) a
state where every worker has returned — completing `wg.Wait` in `main` —
and the reporter and autoscaler have exited is reached, even with jobs
still buffered.  (The select of a cancelled component is modelled as able
to take its ready done branch, which the Go runtime guarantees to be chosen
eventually.) -/
theorem c4_shutdown_no_deadlock (fs : FPath → Option Cause) (s : SysState)
    (hc : s.cancelled = true) :
    (¬ Exited s → ∃ s', Step fs s s') ∧
      (∀ s', Step fs s s' →
        shutdownMeasure s' < shutdownMeasure s ∧ s'.cancelled = true) ∧
      (∃ (n : Nat) (s' : SysState),
        StepN fs n s s' ∧ Exited s' ∧ n ≤ shutdownMeasure s) :=
  ⟨step_progress fs s hc, fun _ h => ⟨step_measure_lt h hc, step_cancelled_mono h hc⟩,
    exit_reachable s hc⟩

/-- Filesystem for the C4 witness. -/
def c4Fs : FPath → Option Cause := fun _ => none

/-- A cancelled mid-run state for the C4 witness: jobs still buffered and
pending, one job in flight, two workers and both periodic components live. -/
def c4Mid : SysState :=
  { pending := ["p"]
    buffer := ["x", "y"]
    closed := false
    cancelled := true
    inFlight := ["z"]
    done := []
    metrics := { processed := 0, failed := 0 }
    errlog := []
    dequeued := 1
    workers := 2
    reporterLive := true
    autoscalerLive := true }

/-- Witness for C4: the shutdown guarantees hold at the concrete cancelled
state with jobs still buffered. -/
theorem c4_shutdown_no_deadlock_witness :
    (¬ Exited c4Mid → ∃ s', Step c4Fs c4Mid s') ∧
      (∀ s', Step c4Fs c4Mid s' →
        shutdownMeasure s' < shutdownMeasure c4Mid ∧ s'.cancelled = true) ∧
      (∃ (n : Nat) (s' : SysState),
        StepN c4Fs n c4Mid s' ∧ Exited s' ∧ n ≤ shutdownMeasure c4Mid) :=
  c4_shutdown_no_deadlock c4Fs c4Mid rfl

/-- C6 (amended): without cancellation, a worker exits only once the queue
is closed and every buffered job has been drained (dequeued) from it, and
the exit consumes no job value: the closed indicator leaves the counters,
the finished jobs, the dequeue count and the error log untouched.  Jobs
already dequeued by other workers may still be in flight at that moment.
Moreover a receive that delivers a job always takes an actual element off
the buffer — the closed indicator is never delivered as a job value. -/
theorem c6_worker_drains_before_exit (fs : FPath → Option Cause)
    (s s' : SysState) (hstep : Step fs s s') :
    (s'.workers < s.workers → s.cancelled = false →
      s.closed = true ∧ s.buffer = [] ∧ s'.done = s.done ∧
        s'.metrics = s.metrics ∧ s'.dequeued = s.dequeued ∧ s'.errlog = s.errlog) ∧
    (s'.dequeued ≠ s.dequeued →
      ∃ (j : FPath) (rest : List FPath),
        s.buffer = j :: rest ∧ s'.inFlight = s.inFlight ++ [j]) := by
  cases hstep with
  | enqueue p rest hcl hp hlen => exact ⟨fun h _ => absurd h (by dsimp only; omega), fun h => absurd rfl h⟩
  | closeDone hcl hp => exact ⟨fun h _ => absurd h (by dsimp only; omega), fun h => absurd rfl h⟩
  | closeCancel hcl hca => exact ⟨fun h _ => absurd h (by dsimp only; omega), fun h => absurd rfl h⟩
  | dequeue j rest hb hw =>
    exact ⟨fun h _ => absurd h (by dsimp only; omega), fun _ => ⟨j, rest, hb, rfl⟩⟩
  | finishOk j hj hpf => exact ⟨fun h _ => absurd h (by dsimp only; omega), fun h => absurd rfl h⟩
  | finishErr j r hj hpf => exact ⟨fun h _ => absurd h (by dsimp only; omega), fun h => absurd rfl h⟩
  | workerExitClosed hw hcl hb =>
    exact ⟨fun _ _ => ⟨hcl, hb, rfl, rfl, rfl, rfl⟩, fun h => absurd rfl h⟩
  | workerExitCancel hw hca =>
    exact ⟨fun _ hc => absurd hca (by simp [hc]), fun h => absurd rfl h⟩
  | cancel hca => exact ⟨fun h _ => absurd h (by dsimp only; omega), fun h => absurd rfl h⟩
  | spawn hca hal => exact ⟨fun h _ => absurd h (by dsimp only; omega), fun h => absurd rfl h⟩
  | reporterExit hrl hca => exact ⟨fun h _ => absurd h (by dsimp only; omega), fun h => absurd rfl h⟩
  | autoscalerExit hal hca => exact ⟨fun h _ => absurd h (by dsimp only; omega), fun h => absurd rfl h⟩

/-- Filesystem for the C6 theorems: every file is readable. -/
def c6Fs : FPath → Option Cause := fun _ => none

/-- A state in which the queue is closed and drained and one worker is about
to exit on the closed indicator. -/
def c6Exit : SysState :=
  { pending := []
    buffer := []
    closed := true
    cancelled := false
    inFlight := []
    done := ["a", "b"]
    metrics := { processed := 2, failed := 0 }
    errlog := []
    dequeued := 2
    workers := 1
    reporterLive := true
    autoscalerLive := true }

/-- Witness for the amended C6: a concrete closed-indicator exit from
`c6Exit` leaves the finished jobs, counters, dequeue count and error log
unchanged, and the queue was closed and drained. -/
theorem c6_worker_drains_before_exit_witness :
    c6Exit.closed = true ∧ c6Exit.buffer = [] ∧
      ({ c6Exit with workers := c6Exit.workers - 1 } : SysState).done = c6Exit.done ∧
      ({ c6Exit with workers := c6Exit.workers - 1 } : SysState).metrics = c6Exit.metrics ∧
      ({ c6Exit with workers := c6Exit.workers - 1 } : SysState).dequeued = c6Exit.dequeued ∧
      ({ c6Exit with workers := c6Exit.workers - 1 } : SysState).errlog = c6Exit.errlog :=
  (c6_worker_drains_before_exit c6Fs c6Exit _
      (Step.workerExitClosed c6Exit (by decide) rfl rfl)).1
    (by decide) rfl

/-- The state of the C6 counterexample run at the moment the queue closes:
jobs "a" and "b" are still buffered. -/
def c6Mid : SysState :=
  { pending := []
    buffer := ["a", "b"]
    closed := true
    cancelled := false
    inFlight := []
    done := []
    metrics := { processed := 0, failed := 0 }
    errlog := []
    dequeued := 0
    workers := 2
    reporterLive := true
    autoscalerLive := true }

/-- The state of the C6 counterexample run after one of the two workers has
exited on the closed indicator while job "a" — buffered at close time — is
still in flight at the other worker, hence not yet processed. -/
def c6End : SysState :=
  { pending := []
    buffer := []
    closed := true
    cancelled := false
    inFlight := ["a"]
    done := ["b"]
    metrics := { processed := 1, failed := 0 }
    errlog := []
    dequeued := 2
    workers := 1
    reporterLive := true
    autoscalerLive := true }

/-- Counterexample to C6 as stated: in a run over files "a" and "b" with two
workers and no cancellation, the queue closes with both jobs buffered
(`c6Mid`), and four steps later a worker has exited (workers drop from 2 to
1) while job "a", buffered at close time, is still unprocessed (in flight,
not finished).  So a worker can exit before all jobs buffered at close time
have been *processed*; it only waits for them to be *dequeued*. -/
theorem c6_counterexample :
    StepN c6Fs 3 (initState ["a", "b"] 2) c6Mid ∧
      c6Mid.closed = true ∧ c6Mid.buffer = ["a", "b"] ∧ c6Mid.cancelled = false ∧
      StepN c6Fs 4 c6Mid c6End ∧
      c6End.cancelled = false ∧ c6End.workers < c6Mid.workers ∧
      "a" ∈ c6Mid.buffer ∧ "a" ∉ c6End.done ∧ "a" ∈ c6End.inFlight := by
  refine ⟨?_, rfl, rfl, rfl, ?_, rfl, by decide, by decide, by decide, by decide⟩
  · exact
      StepN.head (Step.enqueue _ "a" ["b"] rfl rfl (by decide))
        (StepN.head (Step.enqueue _ "b" [] rfl rfl (by decide))
          (StepN.head (Step.closeDone _ rfl rfl)
            (show c6Mid = _ by decide)))
  · exact
      StepN.head (Step.dequeue _ "a" ["b"] rfl (by decide))
        (StepN.head (Step.dequeue _ "b" [] rfl (by decide))
          (StepN.head (Step.finishOk _ "b" (by decide) rfl)
            (StepN.head (Step.workerExitClosed _ (by decide) rfl rfl)
              (show c6End = _ by decide))))

/-- C7: the bounded-queue and close protocol.  For any state: (i) any step
that grows the buffer (an enqueue) is possible only while the buffer is
below its capacity of 100 and the queue is open — at 100 buffered jobs the
producer's send is not enabled and it blocks until a dequeue frees space or
it takes its cancellation branch; (ii) once closed, the queue stays closed
and never receives another job, so the single close can never double-fire
(every closing step requires an open queue); (iii) a step that closes the
queue happens only on the producer's exit path — either the traversal
completed (`pending = []`) or the walk observed cancellation — and leaves
the producer with nothing further to enqueue and the buffer untouched;
and (iv) whenever the queue is open and the context is cancelled, the
producer's cancellation branch is enabled: the enqueue fails with the
cancelled outcome and the remaining jobs (the one in hand included) are
dropped. -/
theorem c7_enqueue_blocks_close_once (fs : FPath → Option Cause) (s : SysState) :
    (∀ s' : SysState, Step fs s s' →
      (s.buffer.length < s'.buffer.length →
        s.buffer.length < queueCap ∧ s.closed = false) ∧
      (s.closed = true → s'.closed = true ∧ s'.buffer.length ≤ s.buffer.length) ∧
      (s.closed = false → s'.closed = true →
        (s.pending = [] ∨ s.cancelled = true) ∧ s'.pending = [] ∧
          s'.buffer = s.buffer)) ∧
    (s.closed = false → s.cancelled = true →
      Step fs s { s with closed := true, pending := [] }) := by
  constructor
  · intro s' hstep
    cases hstep with
    | enqueue p rest hcl hp hlen =>
      refine ⟨fun _ => ⟨hlen, hcl⟩, fun hc => absurd hc (by simp [hcl]), fun _ hc => ?_⟩
      exact absurd hc (by simp [hcl])
    | closeDone hcl hp =>
      exact ⟨fun h => absurd h (by dsimp only; omega), fun hc => absurd hc (by simp [hcl]),
        fun _ _ => ⟨Or.inl hp, hp, rfl⟩⟩
    | closeCancel hcl hca =>
      exact ⟨fun h => absurd h (by dsimp only; omega), fun hc => absurd hc (by simp [hcl]),
        fun _ _ => ⟨Or.inr hca, rfl, rfl⟩⟩
    | dequeue j rest hb hw =>
      refine ⟨fun h => absurd h (by simp [hb]), fun hc => ⟨hc, by simp [hb]⟩, fun h1 h2 => ?_⟩
      exact absurd h2 (by simp [h1])
    | finishOk j hj hpf =>
      exact ⟨fun h => absurd h (by dsimp only; omega), fun hc => ⟨hc, le_rfl⟩,
        fun h1 h2 => absurd h2 (by simp [h1])⟩
    | finishErr j r hj hpf =>
      exact ⟨fun h => absurd h (by dsimp only; omega), fun hc => ⟨hc, le_rfl⟩,
        fun h1 h2 => absurd h2 (by simp [h1])⟩
    | workerExitClosed hw hcl hb =>
      exact ⟨fun h => absurd h (by dsimp only; omega), fun hc => ⟨hc, le_rfl⟩,
        fun h1 h2 => absurd h2 (by simp [h1])⟩
    | workerExitCancel hw hca =>
      exact ⟨fun h => absurd h (by dsimp only; omega), fun hc => ⟨hc, le_rfl⟩,
        fun h1 h2 => absurd h2 (by simp [h1])⟩
    | cancel hca =>
      exact ⟨fun h => absurd h (by dsimp only; omega), fun hc => ⟨hc, le_rfl⟩,
        fun h1 h2 => absurd h2 (by simp [h1])⟩
    | spawn hca hal =>
      exact ⟨fun h => absurd h (by dsimp only; omega), fun hc => ⟨hc, le_rfl⟩,
        fun h1 h2 => absurd h2 (by simp [h1])⟩
    | reporterExit hrl hca =>
      exact ⟨fun h => absurd h (by dsimp only; omega), fun hc => ⟨hc, le_rfl⟩,
        fun h1 h2 => absurd h2 (by simp [h1])⟩
    | autoscalerExit hal hca =>
      exact ⟨fun h => absurd h (by dsimp only; omega), fun hc => ⟨hc, le_rfl⟩,
        fun h1 h2 => absurd h2 (by simp [h1])⟩
  · intro hcl hca
    exact Step.closeCancel s hcl hca

/-- Filesystem for the C7 witness. -/
def c7Fs : FPath → Option Cause := fun _ => none

/-- A cancelled state with an open, full queue for the C7 witness: the
producer cannot enqueue (100 jobs buffered) but its cancellation branch is
enabled. -/
def c7Full : SysState :=
  { pending := ["overflow"]
    buffer := List.replicate 100 "x"
    closed := false
    cancelled := true
    inFlight := []
    done := []
    metrics := { processed := 0, failed := 0 }
    errlog := []
    dequeued := 0
    workers := 1
    reporterLive := true
    autoscalerLive := true }

/-- Witness for C7: at the concrete full cancelled queue the producer's
cancellation branch is a legal step (the pending job is dropped and the
queue closes), and a concrete closing step keeps the buffer intact. -/
theorem c7_enqueue_blocks_close_once_witness :
    Step c7Fs c7Full { c7Full with closed := true, pending := [] } ∧
      (({ c7Full with closed := true, pending := [] } : SysState).pending = [] ∧
        ({ c7Full with closed := true, pending := [] } : SysState).buffer = c7Full.buffer) := by
  have h := c7_enqueue_blocks_close_once c7Fs c7Full
  have hstep := h.2 rfl rfl
  exact ⟨hstep, ((h.1 _ hstep).2.2 rfl rfl).2⟩

end FileProcessor
